import Mathlib

/-!
Shallow embedding of the rulsp interpreter core (src/data.rs, src/env.rs,
src/eval.rs, src/core.rs).  Rust `Rc<RefCell<EnvType>>` environments are
modelled as indices into an explicit store of frames; mutation is explicit
store passing.  Rust panics (`unreachable!`, arithmetic traps) are modelled
by the `Res.abort` outcome, recoverable errors by `Res.err`, and the fuel
needed to make the recursive evaluator total by `Res.diverge` (the Rust
code simply recurses unboundedly, so every theorem quantifies over or
supplies enough fuel).
-/

namespace Rulsp

/-- Error enum from src/data.rs (`AtomError`). -/
inductive AtomError where
  | InvalidType (expected got : String)
  | InvalidOperation (op : String)
  | InvalidArgument (msg : String)
  | UndefinedSymbol (name : String)
deriving DecidableEq, Repr

/-- Outcome of running a piece of interpreter code: a value, a recoverable
`AtomError`, a process abort (Rust panic), or fuel exhaustion. -/
inductive Res (α : Type) where
  | ok (a : α)
  | err (e : AtomError)
  | abort (m : String)
  | diverge
deriving DecidableEq, Repr

/-- Identifiers for the host functions installed by `build` in src/core.rs;
`AtomType::Func` holds a function pointer, modelled as this enum. -/
inductive HostFn where
  | add | sub | mul | div | cons | list | is_list | is_nil | nth | rest | count
deriving DecidableEq, Repr

/-- Value enum from src/data.rs (`AtomType`).  `AFunc` inlines the fields of
`AFuncData` (`exp`, `env`, `params`, `is_macro`); the captured environment is
a store index. -/
inductive AtomType where
  | Nil
  | Int (n : ℤ)
  | Symbol (s : String)
  | List (seq : List AtomType)
  | Func (f : HostFn)
  | AFunc (exp : AtomType) (env : Nat) (params : AtomType) (isMac : Bool)

/-- One environment frame (`EnvType` in src/env.rs): optional parent index
plus the name-to-value map, kept as a duplicate-free association list. -/
structure Frame where
  parent : Option Nat
  data : List (String × AtomType)

mutual

/-- Rendering of values, from `AtomType::format` in src/data.rs; the flag is
the `with_type` argument selecting the tagged diagnostic form. -/
def format : AtomType → Bool → String
  | .Int num, true => "Int(" ++ toString num ++ ")"
  | .Int num, false => toString num
  | .List seq, true => "List(" ++ String.intercalate " " (formatList seq true) ++ ")"
  | .List seq, false => "(" ++ String.intercalate " " (formatList seq false) ++ ")"
  | .Nil, true => "Nil()"
  | .Nil, false => "nil"
  | .Symbol s, true => "Symbol(" ++ s ++ ")"
  | .Symbol s, false => s
  | .Func _, _ => "#func()"
  | .AFunc e _ p m, true =>
      "#" ++ (if m then "macro" else "builtin_func") ++
        "(exp=" ++ format e false ++ " params=" ++ format p true ++ ")"
  | .AFunc _ _ _ m, false => if m then "#macro()" else "#builtin_func()"

/-- Elementwise rendering of a list of values (the `seq.iter().map(...)`
inside `format`). -/
def formatList : List AtomType → Bool → List String
  | [], _ => []
  | a :: t, b => format a b :: formatList t b

end

instance : Repr AtomType := ⟨fun a _ => format a true⟩

instance : Repr Frame :=
  ⟨fun fr _ => repr (fr.parent, fr.data)⟩

/-- Accessor `AtomType::get_int` from src/data.rs. -/
def get_int : AtomType → Except AtomError ℤ
  | .Int i => .ok i
  | a => .error (.InvalidType "Int" (format a true))

/-- Accessor `AtomType::get_list` from src/data.rs. -/
def get_list : AtomType → Except AtomError (List AtomType)
  | .List l => .ok l
  | a => .error (.InvalidType "List" (format a true))

/-- Accessor `AtomType::get_symbol` from src/data.rs. -/
def get_symbol : AtomType → Except AtomError String
  | .Symbol s => .ok s
  | a => .error (.InvalidType "Symbol" (format a true))

/-- Predicate `AtomType::is_symbol` from src/data.rs: is this value the
symbol with the given name? -/
def is_symbol : AtomType → String → Bool
  | .Symbol s, sym => s = sym
  | _, _ => false

/-- The `safe_get` helper shared by src/eval.rs and src/core.rs:
index into the argument list, defaulting to `Nil`. -/
def safe_get (args : List AtomType) (index : Nat) : AtomType :=
  (args[index]?).getD .Nil

/-- The heap of environment frames; an `Env` value in the Rust code is an
index into this store. -/
abbrev Store := List Frame

/-! ## Environment operations (src/env.rs) -/

/-- Lookup in one frame's map (the `env_borrow.data.get(key)` of
`env_find_inner`); the hash map is modelled as an association list. -/
def lookupA : List (String × AtomType) → String → Option AtomType
  | [], _ => none
  | (k, v) :: t, s => if k = s then some v else lookupA t s

/-- Overwriting insert into a frame's map (`data.insert` of `env_set`);
keeps keys unique. -/
def insertA (s : String) (v : AtomType) (d : List (String × AtomType)) :
    List (String × AtomType) :=
  (s, v) :: d.filter (fun p => p.1 ≠ s)

/-- Frame allocation `c_env` from src/env.rs: a fresh empty frame linked to
the given parent, appended to the store; returns the new store and the new
frame's index. -/
def c_env (σ : Store) (parent : Option Nat) : Store × Nat :=
  (σ ++ [⟨parent, []⟩], σ.length)

/-- The store mutation performed by `env_set` on a `Symbol` key: insert into
the local frame only. -/
def envSetStr (σ : Store) (i : Nat) (s : String) (v : AtomType) : Store :=
  match σ[i]? with
  | some fr => σ.set i ⟨fr.parent, insertA s v fr.data⟩
  | none => σ

/-- `env_set` from src/env.rs: insert under a `Symbol` key; the non-symbol
branch is `unreachable!()`, i.e. a process abort. -/
def env_set (σ : Store) (i : Nat) (key : AtomType) (v : AtomType) : Res Store :=
  match key with
  | .Symbol s => .ok (envSetStr σ i s v)
  | _ => .abort "internal error: entered unreachable code"

/-- Chain lookup of `env_find_inner` from src/env.rs.  The Rust code
recurses through live parent references; here the recursion is bounded by a
fuel argument (stores built by `c_env` have parent indices smaller than the
child's, so `σ.length` steps always suffice). -/
def envGetAux : Nat → Store → Nat → String → Option AtomType
  | 0, _, _, _ => none
  | fuel + 1, σ, i, s =>
    match σ[i]? with
    | none => none
    | some fr =>
      match lookupA fr.data s with
      | some v => some v
      | none =>
        match fr.parent with
        | some p => envGetAux fuel σ p s
        | none => none

/-- `env_get` from src/env.rs: `env_find` matches only `Symbol` keys, then
walks the parent chain. -/
def env_get (σ : Store) (i : Nat) (key : AtomType) : Option AtomType :=
  match key with
  | .Symbol s => envGetAux σ.length σ i s
  | _ => none

/-- `env_bind` from src/env.rs: set each parameter to the positional
argument, missing arguments defaulting to `Nil`; a non-symbol parameter hits
the `unreachable!()` abort inside `env_set`. -/
def env_bind : Store → Nat → List AtomType → List AtomType → Res Store
  | σ, _, [], _ => .ok σ
  | σ, i, p :: ps, args =>
    match env_set σ i p (args.headD .Nil) with
    | .ok σ2 => env_bind σ2 i ps args.tail
    | .err e => .err e
    | .abort m => .abort m
    | .diverge => .diverge

/-! ## Host functions (src/core.rs) -/

/-- Signed 64-bit bounds: the Rust values are `i64`. -/
def i64min : ℤ := -(2 ^ 63)

/-- Upper `i64` bound. -/
def i64max : ℤ := 2 ^ 63 - 1

/-- Range predicate for `i64` representability. -/
def inI64 (n : ℤ) : Prop := i64min ≤ n ∧ n ≤ i64max

instance (n : ℤ) : Decidable (inI64 n) := by unfold inI64; infer_instance

/-- The `i64 +` of the `add` fold: traps (panics) on overflow, as the
checked arithmetic of the Rust binary does. -/
def addOp (acc v : ℤ) : Res ℤ :=
  if inI64 (acc + v) then .ok (acc + v) else .abort "attempt to add with overflow"

/-- The `i64 -` of the `sub` fold. -/
def subOp (acc v : ℤ) : Res ℤ :=
  if inI64 (acc - v) then .ok (acc - v) else .abort "attempt to subtract with overflow"

/-- The `i64 *` of the `mul` fold. -/
def mulOp (acc v : ℤ) : Res ℤ :=
  if inI64 (acc * v) then .ok (acc * v) else .abort "attempt to multiply with overflow"

/-- The `i64 /` of the `div` fold: truncating division, trapping on a zero
divisor and on `i64::MIN / -1`. -/
def divOp (acc v : ℤ) : Res ℤ :=
  if v = 0 then .abort "attempt to divide by zero"
  else if acc = i64min ∧ v = -1 then .abort "attempt to divide with overflow"
  else .ok (Int.tdiv acc v)

/-- The inner accumulation loop of `int_fold_op` from src/core.rs, after the
first argument seeded the accumulator. -/
def foldGo (f : ℤ → ℤ → Res ℤ) : ℤ → List AtomType → Res AtomType
  | acc, [] => .ok (.Int acc)
  | acc, a :: t =>
    match get_int a with
    | .error e => .err e
    | .ok v =>
      match f acc v with
      | .ok acc2 => foldGo f acc2 t
      | .err e => .err e
      | .abort m => .abort m
      | .diverge => .diverge

/-- `int_fold_op` from src/core.rs: empty argument list yields the `empty`
value; otherwise the first integer seeds the accumulator and the rest are
folded in from the left. -/
def int_fold_op (f : ℤ → ℤ → Res ℤ) (empty : ℤ) (args : List AtomType) : Res AtomType :=
  match args with
  | [] => .ok (.Int empty)
  | a :: t =>
    match get_int a with
    | .error e => .err e
    | .ok acc => foldGo f acc t

/-- Host `+` from src/core.rs. -/
def add (args : List AtomType) : Res AtomType := int_fold_op addOp 0 args

/-- Host `-` from src/core.rs. -/
def sub (args : List AtomType) : Res AtomType := int_fold_op subOp 0 args

/-- Host `*` from src/core.rs. -/
def mul (args : List AtomType) : Res AtomType := int_fold_op mulOp 1 args

/-- Host `/` from src/core.rs. -/
def div (args : List AtomType) : Res AtomType := int_fold_op divOp 1 args

/-- Host `cons` from src/core.rs. -/
def cons (args : List AtomType) : Res AtomType :=
  match get_list (safe_get args 1) with
  | .ok t => .ok (.List (safe_get args 0 :: t))
  | .error e => .err e

/-- Host `list` from src/core.rs. -/
def list (args : List AtomType) : Res AtomType := .ok (.List args)

/-- Host `list?` from src/core.rs. -/
def is_list (args : List AtomType) : Res AtomType :=
  match safe_get args 0 with
  | .List _ => .ok (.Int 1)
  | _ => .ok .Nil

/-- Host `nil?` from src/core.rs. -/
def is_nil (args : List AtomType) : Res AtomType :=
  match safe_get args 0 with
  | .Nil => .ok (.Int 1)
  | _ => .ok .Nil

/-- Host `count` from src/core.rs. -/
def count (args : List AtomType) : Res AtomType :=
  match get_list (safe_get args 0) with
  | .ok l => .ok (.Int l.length)
  | .error e => .err e

/-- The `n as usize` cast inside `nth`: two's-complement reinterpretation of
an `i64` as a 64-bit unsigned index. -/
def as_usize (n : ℤ) : Nat := (n % (2 ^ 64 : ℤ)).toNat

/-- Host `nth` from src/core.rs: the index is `get_int(..).unwrap_or(0)`,
so a non-integer index silently becomes index 0; the element is read with
`safe_get`, so an out-of-range index yields `Nil`. -/
def nth (args : List AtomType) : Res AtomType :=
  let n : ℤ :=
    match get_int (safe_get args 1) with
    | .ok i => i
    | .error _ => 0
  match get_list (safe_get args 0) with
  | .ok xs => .ok (safe_get xs (as_usize n))
  | .error e => .err e

/-- Host `rest` from src/core.rs. -/
def rest (args : List AtomType) : Res AtomType :=
  match get_list (safe_get args 0) with
  | .ok seq => if seq.length > 0 then .ok (.List seq.tail) else .ok (.List [])
  | .error _ => .ok .Nil

/-- Dispatch of a `Func` value to the host implementation it points to
(the `f.0(args)` call in `AtomType::apply`). -/
def applyHost : HostFn → List AtomType → Res AtomType
  | .add, args => add args
  | .sub, args => sub args
  | .mul, args => mul args
  | .div, args => div args
  | .cons, args => cons args
  | .list, args => list args
  | .is_list, args => is_list args
  | .is_nil, args => is_nil args
  | .nth, args => nth args
  | .rest, args => rest args
  | .count, args => count args

/-! ## Evaluator (src/eval.rs) and application (`AtomType::apply`,
src/data.rs).

The Rust functions recurse without bound; every function here consumes one
unit of fuel per call and answers `Res.diverge` when fuel runs out, so the
mutual recursion is structural in the fuel. -/

/-- Constructor `c_afunc` from src/data.rs: a non-macro user function
capturing the defining environment by reference. -/
def c_afunc (env : Nat) (params exp : AtomType) : AtomType :=
  .AFunc exp env params false

/-- The `quote` special form from src/eval.rs: second element, unevaluated. -/
def quote (args : List AtomType) : Res AtomType :=
  .ok (safe_get args 1)

/-- The `fn*` special form (`lambda` in src/eval.rs). -/
def lambda (args : List AtomType) (env : Nat) : Res AtomType :=
  .ok (c_afunc env (safe_get args 1) (safe_get args 2))

/-- The operator-name computation at the top of `eval_exp`: a symbol head
gives its name, any other head the placeholder `__func__`. -/
def op_name (op : AtomType) : String :=
  match op with
  | .Symbol v => v
  | _ => "__func__"

mutual

/-- `eval` from src/eval.rs: lists go to `eval_exp`, everything else to
`eval_ast`. -/
def eval : Nat → AtomType → Store → Nat → Res (AtomType × Store)
  | 0, _, _, _ => .diverge
  | fuel + 1, ast, σ, env =>
    match ast with
    | .List _ => eval_exp fuel ast σ env
    | _ => eval_ast fuel ast σ env
termination_by structural fuel _ _ _ => fuel

/-- `eval_ast` from src/eval.rs: a list evaluates its elements, a symbol is
looked up (`UndefinedSymbol` on a miss), everything else is
self-evaluating. -/
def eval_ast : Nat → AtomType → Store → Nat → Res (AtomType × Store)
  | 0, _, _, _ => .diverge
  | fuel + 1, ast, σ, env =>
    match ast with
    | .List seq =>
      match eval_each fuel seq σ env with
      | .ok (vals, σ2) => .ok (.List vals, σ2)
      | .err e => .err e
      | .abort m => .abort m
      | .diverge => .diverge
    | .Symbol name =>
      match env_get σ env (.Symbol name) with
      | some atom => .ok (atom, σ)
      | none => .err (.UndefinedSymbol name)
    | _ => .ok (ast, σ)
termination_by structural fuel _ _ _ => fuel

/-- `eval_each` from src/eval.rs: left-to-right evaluation of the elements,
aborting the whole loop on the first failure. -/
def eval_each : Nat → List AtomType → Store → Nat → Res (List AtomType × Store)
  | 0, _, _, _ => .diverge
  | _ + 1, [], σ, _ => .ok ([], σ)
  | fuel + 1, a :: t, σ, env =>
    match eval fuel a σ env with
    | .ok (v, σ2) =>
      match eval_each fuel t σ2 env with
      | .ok (vs, σ3) => .ok (v :: vs, σ3)
      | .err e => .err e
      | .abort m => .abort m
      | .diverge => .diverge
    | .err e => .err e
    | .abort m => .abort m
    | .diverge => .diverge
termination_by structural fuel _ _ _ => fuel

/-- The `def` special form (`def` in src/eval.rs, renamed `defF` because
`def` is a Lean keyword): the name must be a `Symbol`; the value expression
(third element) is evaluated in a fresh child environment of `env` and the
result is bound into `env` itself; returns `Nil`. -/
def defF : Nat → List AtomType → Store → Nat → Res (AtomType × Store)
  | 0, _, _, _ => .diverge
  | fuel + 1, args, σ, env =>
    match args[1]? with
    | none => .err (.InvalidType "Symbol as name of def" "nil")
    | some name =>
      match name with
      | .Symbol s =>
        match eval fuel (safe_get args 2) (c_env σ (some env)).1 (c_env σ (some env)).2 with
        | .ok (value, σ2) =>
          match env_set σ2 env (.Symbol s) value with
          | .ok σ3 => .ok (.Nil, σ3)
          | .err e => .err e
          | .abort m => .abort m
          | .diverge => .diverge
        | .err e => .err e
        | .abort m => .abort m
        | .diverge => .diverge
      | v => .err (.InvalidType "Symbol as name of def" (format v true))
termination_by structural fuel _ _ _ => fuel

/-- `AtomType::apply` from src/data.rs.  A `Func` dispatches to the host
table; an `AFunc` allocates a child of its captured environment, binds the
parameter list positionally via `env_bind`, rebinds the parameter after a
`&` marker to the remaining arguments (a list if non-empty, `Nil`
otherwise), then evaluates the body there; anything else is the
not-callable `InvalidType("function", ..)` error.  The `is_macro` flag is
not consulted anywhere. -/
def apply : Nat → AtomType → List AtomType → Store → Res (AtomType × Store)
  | 0, _, _, _ => .diverge
  | fuel + 1, self, args, σ =>
    match self with
    | .Func f =>
      match applyHost f args with
      | .ok v => .ok (v, σ)
      | .err e => .err e
      | .abort m => .abort m
      | .diverge => .diverge
    | .AFunc exp fenv params _ =>
      match params with
      | .List ps =>
        match env_bind (c_env σ (some fenv)).1 (c_env σ (some fenv)).2 ps args with
        | .ok σ2 =>
          match List.findIdx? (fun v => is_symbol v "&") ps with
          | some args_count =>
            match ps[args_count + 1]? with
            | some restpar =>
              match
                (if (args.drop args_count).isEmpty then
                  env_set σ2 (c_env σ (some fenv)).2 restpar .Nil
                else
                  env_set σ2 (c_env σ (some fenv)).2 restpar (.List (args.drop args_count))) with
              | .ok σ3 => eval fuel exp σ3 (c_env σ (some fenv)).2
              | .err e => .err e
              | .abort m => .abort m
              | .diverge => .diverge
            | none => eval fuel exp σ2 (c_env σ (some fenv)).2
          | none => eval fuel exp σ2 (c_env σ (some fenv)).2
        | .err e => .err e
        | .abort m => .abort m
        | .diverge => .diverge
      | v => .err (.InvalidType "list" (format v true))
    | _ => .err (.InvalidType "function" (format self true))
termination_by structural fuel _ _ _ => fuel

/-- `eval_exp` from src/eval.rs: empty list self-evaluates; a symbol head
selects a special form (`quote`, `def`, `print_env`, `fn*`); any other head
takes the application path — evaluate all elements via `eval_ast`, then
`apply` the first value to the rest.  `print_env` writes to stdout, which
the embedding ignores, and returns `Nil`. -/
def eval_exp : Nat → AtomType → Store → Nat → Res (AtomType × Store)
  | 0, _, _, _ => .diverge
  | fuel + 1, ast, σ, env =>
    match ast with
    | .List args =>
      match args[0]? with
      | none => .ok (ast, σ)
      | some op =>
        if op_name op = "quote" then
          match quote args with
          | .ok v => .ok (v, σ)
          | .err e => .err e
          | .abort m => .abort m
          | .diverge => .diverge
        else if op_name op = "def" then defF fuel args σ env
        else if op_name op = "print_env" then .ok (.Nil, σ)
        else if op_name op = "fn*" then
          match lambda args env with
          | .ok v => .ok (v, σ)
          | .err e => .err e
          | .abort m => .abort m
          | .diverge => .diverge
        else
          match eval_ast fuel ast σ env with
          | .ok (.List vals, σ2) =>
            match vals with
            | v :: vrest => apply fuel v vrest σ2
            | [] => .abort "index out of bounds"
          | .ok (_, _) => .err (.InvalidOperation (op_name op))
          | .err e => .err e
          | .abort m => .abort m
          | .diverge => .diverge
    | _ => .abort "internal error: entered unreachable code"
termination_by structural fuel _ _ _ => fuel

end

/-- Project the value out of an evaluation outcome, dropping the final
store (used to state concrete evaluation results). -/
def resVal : Res (AtomType × Store) → Res AtomType
  | .ok (v, _) => .ok v
  | .err e => .err e
  | .abort m => .abort m
  | .diverge => .diverge

/-- The host-function table installed by `build` in src/core.rs (the
`core.clrs` bootstrap script is outside the modelled core): one root frame
binding each primitive name. -/
def buildData : List (String × AtomType) :=
  [("+", .Func .add), ("-", .Func .sub), ("*", .Func .mul), ("/", .Func .div),
   ("cons", .Func .cons), ("list", .Func .list), ("list?", .Func .is_list),
   ("nil?", .Func .is_nil), ("nth", .Func .nth), ("rest", .Func .rest),
   ("count", .Func .count)]

/-- The global environment produced by `build`: a single parentless frame
holding `buildData`. -/
def env0 : Store := [⟨none, buildData⟩]

/-- Did the computation produce a value? -/
def isOk : Res AtomType → Bool
  | .ok _ => true
  | _ => false

/-- Did the computation return a recoverable `AtomError`? -/
def isErr : Res AtomType → Bool
  | .err _ => true
  | _ => false

/-! ## Equality (`PartialEq`, src/data.rs and src/env.rs)

`AtomType` derives `PartialEq` except that `AtomFn` (the `Func` payload)
compares as constantly `false`; `AFuncData` derives it fieldwise, so an
`AFunc` compares `exp`, the *contents* of the captured environment
(`Rc<RefCell<EnvType>>` compares the pointed-to `EnvType`s, hash maps by
key/value), `params`, and `is_macro`.  The Rust recursion can chase
environment references without bound, so it is modelled with fuel. -/

mutual

/-- `PartialEq` on `AtomType` (fuelled). -/
def atomEqF : Nat → Store → AtomType → AtomType → Bool
  | 0, _, _, _ => false
  | fuel + 1, σ, a, b =>
    match a, b with
    | .Nil, .Nil => true
    | .Int m, .Int n => m == n
    | .Symbol s, .Symbol t => s == t
    | .List xs, .List ys => listEqF fuel σ xs ys
    | .Func _, .Func _ => false
    | .AFunc e1 v1 p1 m1, .AFunc e2 v2 p2 m2 =>
      atomEqF fuel σ e1 e2 && envEqF fuel σ v1 v2 && atomEqF fuel σ p1 p2 && (m1 == m2)
    | _, _ => false
termination_by structural fuel _ _ _ => fuel

/-- `Vec<AtomVal>` equality: elementwise. -/
def listEqF : Nat → Store → List AtomType → List AtomType → Bool
  | 0, _, _, _ => false
  | _ + 1, _, [], [] => true
  | fuel + 1, σ, x :: xs, y :: ys => atomEqF fuel σ x y && listEqF fuel σ xs ys
  | _ + 1, _, _, _ => false
termination_by structural fuel _ _ _ => fuel

/-- `EnvType` equality: parents recursively, maps by size and key lookup. -/
def envEqF : Nat → Store → Nat → Nat → Bool
  | 0, _, _, _ => false
  | fuel + 1, σ, i, j =>
    match σ[i]?, σ[j]? with
    | some fi, some fj =>
      (match fi.parent, fj.parent with
       | none, none => true
       | some p, some q => envEqF fuel σ p q
       | _, _ => false)
      && (fi.data.length == fj.data.length)
      && dataAllF fuel σ fi.data fj.data
    | _, _ => false
termination_by structural fuel _ _ _ => fuel

/-- Hash-map equality body: every key of the first map is present in the
second with an equal value. -/
def dataAllF : Nat → Store → List (String × AtomType) → List (String × AtomType) → Bool
  | 0, _, _, _ => false
  | _ + 1, _, [], _ => true
  | fuel + 1, σ, (k, v) :: t, d2 =>
    (match lookupA d2 k with
     | some w => atomEqF fuel σ v w
     | none => false)
    && dataAllF fuel σ t d2
termination_by structural fuel _ _ _ => fuel

end

/-- Pure view of the `int_fold_op` accumulation over already-unwrapped
integers: the sequence of `f` steps starting from the seed accumulator
(used to relate the fold on atoms to a mathematical fold). -/
def chainRes (f : ℤ → ℤ → Res ℤ) : ℤ → List ℤ → Res ℤ
  | acc, [] => .ok acc
  | acc, v :: t =>
    match f acc v with
    | .ok a2 => chainRes f a2 t
    | .err e => .err e
    | .abort m => .abort m
    | .diverge => .diverge

/-- The `is_macro` flag of a user function value. -/
def isMacB : AtomType → Bool
  | .AFunc _ _ _ m => m
  | _ => false

/-- A user function value whose `is_macro` flag is `true`: body
`(count x)`, parameter list `(x)`, capturing frame 0. -/
def mAtom : AtomType := .AFunc (.List [.Symbol "count", .Symbol "x"]) 0 (.List [.Symbol "x"]) true

/-- Store for exercising `mAtom`: one root frame binding `m`, `count` and
`list`. -/
def envC1 : Store := [⟨none, [("m", mAtom), ("count", .Func .count), ("list", .Func .list)]⟩]

/-- A store consisting of one empty root frame. -/
def envC5 : Store := [⟨none, []⟩]

/-- A user function (closure) over the empty root frame of `envC5`:
body `Nil`, empty parameter list, not a macro. -/
def closC5 : AtomType := .AFunc .Nil 0 (.List []) false

/-- Store with a root frame binding `x` to `5` (for the not-callable
diagnostics scenario). -/
def envC6 : Store := [⟨none, [("x", .Int 5)]⟩]

/-! ## Helper lemmas about the environment store -/

/-- `env_set` never changes the number of frames. -/
theorem length_envSetStr (σ : Store) (i : Nat) (s : String) (v : AtomType) :
    (envSetStr σ i s v).length = σ.length := by
  unfold envSetStr
  cases h : σ[i]? <;> simp

/-- A freshly inserted binding is found first. -/
theorem lookupA_insertA_self (d : List (String × AtomType)) (s : String) (v : AtomType) :
    lookupA (insertA s v d) s = some v := by
  simp [insertA, lookupA]

/-- After `env_set` of symbol `s` in frame `i`, looking `s` up starting at
frame `i` yields the new value. -/
theorem env_get_setStr_self (σ : Store) (i : Nat) (s : String) (v : AtomType)
    (h : i < σ.length) :
    env_get (envSetStr σ i s v) i (.Symbol s) = some v := by
  obtain ⟨fr, hfr⟩ : ∃ fr, σ[i]? = some fr := ⟨σ[i], List.getElem?_eq_getElem h⟩
  obtain ⟨k, hk⟩ : ∃ k, σ.length = k + 1 := ⟨σ.length - 1, by omega⟩
  unfold env_get
  rw [length_envSetStr, hk]
  unfold envGetAux
  rw [envSetStr, hfr]
  rw [List.getElem?_set_self (by omega)]
  simp [lookupA_insertA_self]

/-- Computation law of the `def` special form: with enough fuel, evaluating
`(def s e)` runs `e` in a fresh child frame of `env` (appended at index
`σ.length`), then binds the result to `s` in `env` itself and returns
`Nil`; failures propagate. -/
theorem def_unfold (fuel : Nat) (σ : Store) (env : Nat) (s : String) (e : AtomType) :
    eval (fuel + 3) (.List [.Symbol "def", .Symbol s, e]) σ env =
      match eval fuel e (σ ++ [⟨some env, []⟩]) σ.length with
      | .ok (v, σ2) => .ok (.Nil, envSetStr σ2 env s v)
      | .err er => .err er
      | .abort m => .abort m
      | .diverge => .diverge := by
  simp only [eval, eval_exp, op_name, defF, c_env, safe_get, env_set]
  simp

/-- One `(def s n)` step on an integer literal: it succeeds, returns `Nil`,
the new store resolves `s` to `n` from `env`, and the store grew by the one
child frame. -/
theorem def_int_step (σ : Store) (env : Nat) (s : String) (n : ℤ) (fuel : Nat)
    (h : env < σ.length) :
    eval (fuel + 5) (.List [.Symbol "def", .Symbol s, .Int n]) σ env =
      .ok (.Nil, envSetStr (σ ++ [⟨some env, []⟩]) env s (.Int n)) ∧
    env_get (envSetStr (σ ++ [⟨some env, []⟩]) env s (.Int n)) env (.Symbol s) = some (.Int n) ∧
    (envSetStr (σ ++ [⟨some env, []⟩]) env s (.Int n)).length = σ.length + 1 := by
  refine ⟨?_, ?_, ?_⟩
  · have h1 := def_unfold (fuel + 2) σ env s (.Int n)
    have h2 : eval (fuel + 2) (.Int n) (σ ++ [⟨some env, []⟩]) σ.length =
        .ok (.Int n, σ ++ [⟨some env, []⟩]) := by
      simp [eval, eval_ast]
    rw [h2] at h1
    exact h1
  · exact env_get_setStr_self _ _ _ _ (by simp; omega)
  · rw [length_envSetStr]; simp

/-! ## Claims -/

/-- C2: evaluating `(def s e)` evaluates the third element in a freshly
created child environment of the current one (the frame appended at index
`σ.length`, whose parent is `env`), binds the resulting value via `env_set`
into the current (outer) environment, and returns `Nil`; after `(def x 5)`
looking `x` up in that environment yields `5`, and a later `(def x 6)` in
the same environment makes subsequent lookups of `x` return `6`. -/
theorem C2_def_child_env_outer_bind :
    (∀ fuel σ env s e,
      eval (fuel + 3) (.List [.Symbol "def", .Symbol s, e]) σ env =
        match eval fuel e (σ ++ [⟨some env, []⟩]) σ.length with
        | .ok (v, σ2) => .ok (.Nil, envSetStr σ2 env s v)
        | .err er => .err er
        | .abort m => .abort m
        | .diverge => .diverge) ∧
    (∀ σ env s (n m : ℤ) fuel, env < σ.length →
      ∃ σ1 σ2,
        eval (fuel + 5) (.List [.Symbol "def", .Symbol s, .Int n]) σ env = .ok (.Nil, σ1) ∧
        env_get σ1 env (.Symbol s) = some (.Int n) ∧
        eval (fuel + 5) (.List [.Symbol "def", .Symbol s, .Int m]) σ1 env = .ok (.Nil, σ2) ∧
        env_get σ2 env (.Symbol s) = some (.Int m)) := by
  constructor
  · exact def_unfold
  · intro σ env s n m fuel h
    obtain ⟨e1, g1, l1⟩ := def_int_step σ env s n fuel h
    obtain ⟨e2, g2, _⟩ := def_int_step _ env s m fuel (by rw [l1]; omega)
    exact ⟨_, _, e1, g1, e2, g2⟩

/-- Witness for C2: the `(def x 5)` then `(def x 6)` scenario in the global
environment. -/
theorem C2_witness :
    ∃ σ1 σ2,
      eval 5 (.List [.Symbol "def", .Symbol "x", .Int 5]) env0 0 = .ok (.Nil, σ1) ∧
      env_get σ1 0 (.Symbol "x") = some (.Int 5) ∧
      eval 5 (.List [.Symbol "def", .Symbol "x", .Int 6]) σ1 0 = .ok (.Nil, σ2) ∧
      env_get σ2 0 (.Symbol "x") = some (.Int 6) :=
  C2_def_child_env_outer_bind.2 env0 0 "x" 5 6 0 (by decide)

/-- Reduction of `env_get` on a symbol key to the chain walk. -/
theorem env_get_symbol (σ : Store) (i : Nat) (s : String) :
    env_get σ i (.Symbol s) = envGetAux σ.length σ i s := rfl

/-- One unfolding step of the chain walk. -/
theorem envGetAux_succ (fuel : Nat) (σ : Store) (i : Nat) (s : String) :
    envGetAux (fuel + 1) σ i s =
      match σ[i]? with
      | none => none
      | some fr =>
        match lookupA fr.data s with
        | some v => some v
        | none =>
          match fr.parent with
          | some p => envGetAux fuel σ p s
          | none => none := rfl

/-- Looking a symbol up from a fresh empty child frame (appended at the end
of the store) finds, through the parent link, a binding just written into
the parent frame. -/
theorem env_get_child_after_set (σ : Store) (env : Nat) (x : String) (v2 : AtomType)
    (h : env < σ.length) :
    env_get (envSetStr σ env x v2 ++ [⟨some env, []⟩])
      (envSetStr σ env x v2).length (.Symbol x) = some v2 := by
  obtain ⟨fr, hfr⟩ : ∃ fr, σ[env]? = some fr := ⟨σ[env], List.getElem?_eq_getElem h⟩
  obtain ⟨k, hk⟩ : ∃ k, σ.length = k + 1 := ⟨σ.length - 1, by omega⟩
  have hl : (envSetStr σ env x v2).length = σ.length := length_envSetStr σ env x v2
  rw [env_get_symbol]
  rw [show (envSetStr σ env x v2 ++ [(⟨some env, []⟩ : Frame)]).length = σ.length + 1 by
    simp [hl]]
  rw [envGetAux_succ, List.getElem?_concat_length]
  simp only [lookupA]
  rw [hk, envGetAux_succ]
  rw [List.getElem?_append_left (by rw [hl]; omega)]
  rw [show (envSetStr σ env x v2)[env]? = some ⟨fr.parent, insertA x v2 fr.data⟩ by
    unfold envSetStr; rw [hfr]; exact List.getElem?_set_self (by omega)]
  simp [lookupA_insertA_self]

/-- C3: a closure's captured environment is a live reference, not a
snapshot.  `fn*` captures the current environment index; if `x` was bound
in `env` when the closure `(fn* () x)` was built, and `x` is afterwards
rebound in the same `env` via `env_set`, applying the closure resolves `x`
through the freshly allocated call frame to the new value. -/
theorem C3_closure_live_env :
    (∀ fuel σ env x,
      eval (fuel + 2) (.List [.Symbol "fn*", .List [], .Symbol x]) σ env =
        .ok (.AFunc (.Symbol x) env (.List []) false, σ)) ∧
    (∀ σ env x v1 v2 fuel, env < σ.length →
      env_get σ env (.Symbol x) = some v1 →
      apply (fuel + 3) (.AFunc (.Symbol x) env (.List []) false) [] (envSetStr σ env x v2) =
        .ok (v2, envSetStr σ env x v2 ++ [⟨some env, []⟩])) := by
  constructor
  · intro fuel σ env x
    simp [eval, eval_exp, op_name, lambda, c_afunc, safe_get]
  · intro σ env x v1 v2 fuel h hv
    simp only [apply, c_env, env_bind]
    simp only [List.findIdx?_nil]
    simp only [eval, eval_ast]
    rw [env_get_child_after_set σ env x v2 h]

/-- Witness for C3: `x` bound to `1` at closure-construction time, rebound
to `2`, and the closure application observes `2`. -/
theorem C3_witness :
    apply 3 (.AFunc (.Symbol "x") 0 (.List []) false) []
        (envSetStr [⟨none, [("x", .Int 1)]⟩] 0 "x" (.Int 2)) =
      .ok (.Int 2, envSetStr [⟨none, [("x", .Int 1)]⟩] 0 "x" (.Int 2) ++ [⟨some 0, []⟩]) :=
  C3_closure_live_env.2 [⟨none, [("x", .Int 1)]⟩] 0 "x" (.Int 1) (.Int 2) 0 (by decide) (by rfl)

/-- `env_bind` on a list of symbol parameters always succeeds, and the
number of frames is unchanged. -/
theorem env_bind_symbols (ps : List AtomType) :
    ∀ (args : List AtomType) (σ : Store) (i : Nat),
      (∀ p ∈ ps, ∃ s, p = .Symbol s) →
      ∃ σ2, env_bind σ i ps args = .ok σ2 ∧ σ2.length = σ.length := by
  induction ps with
  | nil => exact fun args σ i _ => ⟨σ, rfl, rfl⟩
  | cons p pt ih =>
    intro args σ i hall
    obtain ⟨s, rfl⟩ := hall p (List.mem_cons_self p pt)
    obtain ⟨σ2, h2, hl⟩ :=
      ih args.tail (envSetStr σ i s (args.headD .Nil)) i
        (fun q hq => hall q (List.mem_cons_of_mem _ hq))
    refine ⟨σ2, ?_, by rw [hl, length_envSetStr]⟩
    simp only [env_bind, env_set]
    simpa using h2

/-- C4: applying a non-macro closure whose parameter list contains the
marker symbol `&` at position `k`, followed by a parameter symbol `r`,
binds `r` to the `List` of all arguments from position `k` onward when at
least one such argument exists, and to `Nil` otherwise (observed by using
`r` itself as the closure body). -/
theorem C4_variadic_rest_binding :
    ∀ fuel σ env (ps args : List AtomType) (k : Nat) (r : String),
      (∀ p ∈ ps, ∃ s, p = .Symbol s) →
      List.findIdx? (fun v => is_symbol v "&") ps = some k →
      ps[k + 1]? = some (.Symbol r) →
      ∃ σ2,
        apply (fuel + 3) (.AFunc (.Symbol r) env (.List ps) false) args σ =
          .ok (if (args.drop k).isEmpty then .Nil else .List (args.drop k), σ2) := by
  intro fuel σ env ps args k r hall hk hr
  obtain ⟨σ2, hb, hl⟩ := env_bind_symbols ps args (σ ++ [⟨some env, []⟩]) σ.length hall
  refine ⟨envSetStr σ2 σ.length r
    (if (args.drop k).isEmpty then .Nil else .List (args.drop k)), ?_⟩
  simp only [apply, c_env]
  rw [hb, hk]
  simp only [hr]
  have hset := env_get_setStr_self σ2 σ.length r
    (if (args.drop k).isEmpty then .Nil else .List (args.drop k)) (by rw [hl]; simp)
  cases hc : (args.drop k).isEmpty
  · simp only [hc, Bool.false_eq_true, if_false]
    simp only [env_set]
    simp only [eval, eval_ast]
    rw [show env_get (envSetStr σ2 (List.length σ) r (.List (args.drop k)))
        (List.length σ) (.Symbol r) = some (.List (args.drop k)) by
      simpa [hc] using hset]
  · simp only [hc, if_true]
    simp only [env_set]
    simp only [eval, eval_ast]
    rw [show env_get (envSetStr σ2 (List.length σ) r .Nil)
        (List.length σ) (.Symbol r) = some AtomType.Nil by
      simpa [hc] using hset]

/-- Witness for C4: the spec's `(a & rest)` scenario — one argument binds
`rest` to `nil`, three arguments bind it to the two-element list of the
extras. -/
theorem C4_witness :
    (∃ σ2,
      apply 3 (.AFunc (.Symbol "rest") 0
          (.List [.Symbol "a", .Symbol "&", .Symbol "rest"]) false)
        [.Int 9] [⟨none, []⟩] = .ok (.Nil, σ2)) ∧
    (∃ σ2,
      apply 3 (.AFunc (.Symbol "rest") 0
          (.List [.Symbol "a", .Symbol "&", .Symbol "rest"]) false)
        [.Int 9, .Int 8, .Int 7] [⟨none, []⟩] = .ok (.List [.Int 8, .Int 7], σ2)) := by
  have hall : ∀ p ∈ [AtomType.Symbol "a", AtomType.Symbol "&", AtomType.Symbol "rest"],
      ∃ s, p = AtomType.Symbol s := by
    intro p hp
    simp only [List.mem_cons, List.mem_singleton] at hp
    rcases hp with rfl | rfl | rfl | h
    · exact ⟨"a", rfl⟩
    · exact ⟨"&", rfl⟩
    · exact ⟨"rest", rfl⟩
    · exact absurd h (List.not_mem_nil p)
  constructor
  · have h := C4_variadic_rest_binding 0 [⟨none, []⟩] 0
      [.Symbol "a", .Symbol "&", .Symbol "rest"] [.Int 9] 1 "rest" hall rfl rfl
    simpa using h
  · have h := C4_variadic_rest_binding 0 [⟨none, []⟩] 0
      [.Symbol "a", .Symbol "&", .Symbol "rest"] [.Int 9, .Int 8, .Int 7] 1 "rest" hall rfl rfl
    simpa using h

/-- `env_bind` on a parameter list containing a non-symbol hits the
`unreachable!()` abort of `env_set`. -/
theorem env_bind_nonsymbol (ps : List AtomType) :
    ∀ (args : List AtomType) (σ : Store) (i : Nat),
      (∃ p ∈ ps, ∀ s, p ≠ .Symbol s) →
      env_bind σ i ps args = .abort "internal error: entered unreachable code" := by
  induction ps with
  | nil =>
    rintro args σ i ⟨p, hp, _⟩
    exact absurd hp (List.not_mem_nil p)
  | cons q qt ih =>
    rintro args σ i ⟨p, hp, hns⟩
    rcases List.mem_cons.mp hp with rfl | hmem
    · cases p with
      | Symbol s => exact absurd rfl (hns s)
      | Nil => rfl
      | Int n => rfl
      | List l => rfl
      | Func f => rfl
      | AFunc e n pr m => rfl
    · cases q with
      | Symbol s =>
        simp only [env_bind, env_set]
        exact ih args.tail _ i ⟨p, hmem, hns⟩
      | Nil => rfl
      | Int n => rfl
      | List l => rfl
      | Func f => rfl
      | AFunc e n pr m => rfl

/-- C10: environment insertion is only defined for `Symbol` keys —
`env_set`'s non-symbol branch is the `unreachable!()` process abort — and
closure application binds every element of the parameter list through
`env_bind` without checking that it is a symbol, so applying a closure
whose parameter list contains a non-symbol element aborts the process
instead of returning a `TypeMismatch`; under the precondition that all
parameters are symbols, `env_bind` always succeeds and the abort branch is
unreachable. -/
theorem C10_nonsymbol_param_aborts :
    (∀ σ i key v, (∀ s, key ≠ AtomType.Symbol s) →
      env_set σ i key v = .abort "internal error: entered unreachable code") ∧
    (∀ fuel σ env exp (ps args : List AtomType) mf,
      (∃ p ∈ ps, ∀ s, p ≠ AtomType.Symbol s) →
      apply (fuel + 1) (.AFunc exp env (.List ps) mf) args σ =
        .abort "internal error: entered unreachable code") ∧
    (∀ σ i (ps args : List AtomType),
      (∀ p ∈ ps, ∃ s, p = AtomType.Symbol s) →
      ∃ σ2, env_bind σ i ps args = .ok σ2) := by
  refine ⟨?_, ?_, ?_⟩
  · intro σ i key v h
    cases key with
    | Symbol s => exact absurd rfl (h s)
    | Nil => rfl
    | Int n => rfl
    | List l => rfl
    | Func f => rfl
    | AFunc e n pr m => rfl
  · intro fuel σ env exp ps args mf hex
    simp only [apply, c_env]
    rw [env_bind_nonsymbol ps args _ _ hex]
  · intro σ i ps args hall
    obtain ⟨σ2, h, _⟩ := env_bind_symbols ps args σ i hall
    exact ⟨σ2, h⟩

/-- Witness for C10: a non-symbol key aborts `env_set`, a closure with the
parameter list `(7)` aborts on application, and an all-symbol parameter
list binds fine. -/
theorem C10_witness :
    env_set [] 0 (.Int 0) .Nil = .abort "internal error: entered unreachable code" ∧
    apply 1 (.AFunc .Nil 0 (.List [.Int 7]) false) [] [⟨none, []⟩] =
      .abort "internal error: entered unreachable code" ∧
    (∃ σ2, env_bind [⟨none, []⟩] 0 [.Symbol "a"] [] = .ok σ2) :=
  ⟨C10_nonsymbol_param_aborts.1 [] 0 (.Int 0) .Nil (fun s h => AtomType.noConfusion h),
   C10_nonsymbol_param_aborts.2.1 0 [⟨none, []⟩] 0 .Nil [.Int 7] [] false
     ⟨.Int 7, List.mem_singleton.mpr rfl, fun s h => AtomType.noConfusion h⟩,
   C10_nonsymbol_param_aborts.2.2 [⟨none, []⟩] 0 [.Symbol "a"] []
     (by
       intro p hp
       rcases List.mem_singleton.mp hp with rfl
       exact ⟨"a", rfl⟩)⟩

/-- The atom-level fold equals the pure integer chain once the arguments
are integer atoms (inner loop). -/
theorem foldGo_map (f : ℤ → ℤ → Res ℤ) (ns : List ℤ) :
    ∀ acc, foldGo f acc (ns.map .Int) =
      match chainRes f acc ns with
      | .ok m => .ok (.Int m)
      | .err e => .err e
      | .abort m => .abort m
      | .diverge => .diverge := by
  induction ns with
  | nil => intro acc; rfl
  | cons v t ih =>
    intro acc
    simp only [List.map_cons, foldGo, get_int, chainRes]
    cases h : f acc v with
    | ok a2 => simp [h, ih a2]
    | err e => simp [h]
    | abort m => simp [h]
    | diverge => simp [h]

/-- The atom-level fold equals the pure integer chain once the arguments
are integer atoms. -/
theorem int_fold_op_map (f : ℤ → ℤ → Res ℤ) (e : ℤ) (n0 : ℤ) (ns : List ℤ) :
    int_fold_op f e ((n0 :: ns).map .Int) =
      match chainRes f n0 ns with
      | .ok m => .ok (.Int m)
      | .err e => .err e
      | .abort m => .abort m
      | .diverge => .diverge := by
  simp only [List.map_cons, int_fold_op, get_int]
  exact foldGo_map f ns n0

/-- A zero somewhere in the divisor chain makes the `div` fold abort. -/
theorem chainRes_div_zero (ns : List ℤ) :
    ∀ acc, (0 : ℤ) ∈ ns → ∃ m, chainRes divOp acc ns = .abort m := by
  induction ns with
  | nil => intro acc h; exact absurd h (List.not_mem_nil 0)
  | cons v t ih =>
    intro acc h0
    by_cases hv : v = 0
    · subst hv
      exact ⟨"attempt to divide by zero", by simp [chainRes, divOp]⟩
    · have h0t : (0 : ℤ) ∈ t := by
        rcases List.mem_cons.mp h0 with h | h
        · exact absurd h.symm hv
        · exact h
      simp only [chainRes]
      cases hd : divOp acc v with
      | ok a2 =>
        obtain ⟨m, hm⟩ := ih a2 h0t
        exact ⟨m, hm⟩
      | err e =>
        unfold divOp at hd
        split_ifs at hd
      | abort m => exact ⟨m, rfl⟩
      | diverge =>
        unfold divOp at hd
        split_ifs at hd

/-- If the `div` chain returns a value, no divisor was zero. -/
theorem chainRes_div_ok_nonzero (ns : List ℤ) :
    ∀ acc m, chainRes divOp acc ns = .ok m → ∀ x ∈ ns, x ≠ 0 := by
  induction ns with
  | nil => intro acc m h x hx; exact absurd hx (List.not_mem_nil x)
  | cons v t ih =>
    intro acc m h x hx
    by_cases hv : v = 0
    · subst hv
      simp [chainRes, divOp] at h
    · rcases List.mem_cons.mp hx with rfl | hxt
      · exact hv
      · revert h
        simp only [chainRes]
        cases hd : divOp acc v with
        | ok a2 => exact fun h => ih a2 m h x hxt
        | err e => exact fun h => Res.noConfusion h
        | abort mm => exact fun h => Res.noConfusion h
        | diverge => exact fun h => Res.noConfusion h

/-- C9: host `/` performs unguarded `i64` division.  On all-integer
arguments it returns a value only when every argument after the first is
non-zero; when some argument after the first is `Integer(0)` the fold
aborts the process (a Rust panic) instead of returning `TypeMismatch` or
any other error value; `(/ 1 0)` aborts with the divide-by-zero panic. -/
theorem C9_div_by_zero_aborts :
    (∀ (n0 : ℤ) (ns : List ℤ), (0 : ℤ) ∈ ns →
      ∃ m, div ((n0 :: ns).map .Int) = .abort m) ∧
    (∀ (n0 : ℤ) (ns : List ℤ) (v : AtomType), div ((n0 :: ns).map .Int) = .ok v →
      ∀ x ∈ ns, x ≠ 0) ∧
    div [.Int 1, .Int 0] = .abort "attempt to divide by zero" := by
  refine ⟨?_, ?_, rfl⟩
  · intro n0 ns h0
    obtain ⟨m, hm⟩ := chainRes_div_zero ns n0 h0
    exact ⟨m, by rw [div, int_fold_op_map, hm]⟩
  · intro n0 ns v hok x hx
    rw [div, int_fold_op_map] at hok
    cases hc : chainRes divOp n0 ns with
    | ok m => exact chainRes_div_ok_nonzero ns n0 m hc x hx
    | err e => rw [hc] at hok; exact Res.noConfusion hok
    | abort m => rw [hc] at hok; exact Res.noConfusion hok
    | diverge => rw [hc] at hok; exact Res.noConfusion hok

/-- Witness for C9: `(/ 1 0)` aborts; `(/ 4 2)` succeeds so its divisor
list is non-zero. -/
theorem C9_witness :
    (∃ m, div [.Int 1, .Int 0] = .abort m) ∧ (∀ x ∈ [(2 : ℤ)], x ≠ 0) :=
  ⟨C9_div_by_zero_aborts.1 1 [0] (List.mem_singleton.mpr rfl),
   C9_div_by_zero_aborts.2.1 4 [2] (.Int 2) (by rfl)⟩

/-- `get_int` succeeding pins the argument down to an integer atom. -/
theorem get_int_ok {a : AtomType} {n : ℤ} (h : get_int a = .ok n) : a = .Int n := by
  cases a <;> simp_all [get_int]

/-- `get_int` on a non-integer produces the `TypeMismatch` error naming
`Int` and the tagged rendering of the value. -/
theorem get_int_not_int {a : AtomType} (h : ∀ n : ℤ, a ≠ .Int n) :
    get_int a = .error (.InvalidType "Int" (format a true)) := by
  cases a with
  | Int n => exact absurd rfl (h n)
  | Nil => rfl
  | Symbol s => rfl
  | List l => rfl
  | Func f => rfl
  | AFunc e n p m => rfl

/-- The seed is among the partial results of a scan. -/
theorem mem_scanl_self (g : ℤ → ℤ → ℤ) (b : ℤ) (l : List ℤ) :
    b ∈ List.scanl g b l := by
  cases l <;> simp [List.scanl]

/-- When every step of the chain stays representable (and satisfies the
side condition `P` of the step function), the chain computes the plain
mathematical left fold. -/
theorem chainRes_ok_of (g : ℤ → ℤ → ℤ) (F : ℤ → ℤ → Res ℤ) (P : ℤ → Prop)
    (hF : ∀ a v, P v → inI64 (g a v) → F a v = .ok (g a v)) :
    ∀ (ns : List ℤ) (n0 : ℤ), (∀ v ∈ ns, P v) →
      (∀ m ∈ List.scanl g n0 ns, inI64 m) →
      chainRes F n0 ns = .ok (ns.foldl g n0) := by
  intro ns
  induction ns with
  | nil => intro n0 _ _; rfl
  | cons v t ih =>
    intro n0 hP hscan
    have h1 : inI64 (g n0 v) := hscan (g n0 v) (by
      rw [List.scanl_cons]
      exact List.mem_cons_of_mem _ (mem_scanl_self g (g n0 v) t))
    simp only [chainRes]
    rw [hF n0 v (hP v (List.mem_cons_self v t)) h1]
    show chainRes F (g n0 v) t = .ok ((v :: t).foldl g n0)
    simp only [List.foldl_cons]
    exact ih (g n0 v) (fun q hq => hP q (List.mem_cons_of_mem _ hq))
      (fun m hm => hscan m (by rw [List.scanl_cons]; exact List.mem_cons_of_mem _ hm))

/-- If the inner fold loop returns a value, every argument it consumed was
an integer atom. -/
theorem foldGo_ok_int (f : ℤ → ℤ → Res ℤ) (args : List AtomType) :
    ∀ acc v, foldGo f acc args = .ok v → ∀ a ∈ args, ∃ n, a = .Int n := by
  induction args with
  | nil => intro acc v _ a ha; exact absurd ha (List.not_mem_nil a)
  | cons b t ih =>
    intro acc v h a ha
    simp only [foldGo] at h
    rcases List.mem_cons.mp ha with rfl | hat
    · cases hb : get_int a with
      | error e => simp only [hb] at h; exact Res.noConfusion h
      | ok n => exact ⟨n, get_int_ok hb⟩
    · cases hb : get_int b with
      | error e => simp only [hb] at h; exact Res.noConfusion h
      | ok n =>
        simp only [hb] at h
        cases hf : f acc n with
        | ok a2 => simp only [hf] at h; exact ih a2 v h a hat
        | err e => simp only [hf] at h; exact Res.noConfusion h
        | abort m => simp only [hf] at h; exact Res.noConfusion h
        | diverge => simp only [hf] at h; exact Res.noConfusion h

/-- If `int_fold_op` returns a value, every argument was an integer atom. -/
theorem int_fold_op_ok_int (f : ℤ → ℤ → Res ℤ) (e : ℤ) (args : List AtomType)
    (v : AtomType) (h : int_fold_op f e args = .ok v) :
    ∀ a ∈ args, ∃ n, a = .Int n := by
  cases args with
  | nil => intro a ha; exact absurd ha (List.not_mem_nil a)
  | cons b t =>
    simp only [int_fold_op] at h
    cases hb : get_int b with
    | error e2 => simp only [hb] at h; exact Res.noConfusion h
    | ok acc =>
      simp only [hb] at h
      intro a ha
      rcases List.mem_cons.mp ha with rfl | hat
      · exact ⟨acc, get_int_ok hb⟩
      · exact foldGo_ok_int f t acc v h a hat

/-- An argument list containing a non-integer never lets `int_fold_op`
succeed. -/
theorem int_fold_op_not_ok (f : ℤ → ℤ → Res ℤ) (e : ℤ) (args : List AtomType)
    (hex : ∃ a ∈ args, ∀ n : ℤ, a ≠ .Int n) :
    isOk (int_fold_op f e args) = false := by
  obtain ⟨a, ha, hna⟩ := hex
  cases hres : int_fold_op f e args with
  | ok v =>
    obtain ⟨n, rfl⟩ := int_fold_op_ok_int f e args v hres a ha
    exact absurd rfl (hna n)
  | err e2 => rfl
  | abort m => rfl
  | diverge => rfl

/-- When the fold survives the integer prefix, the first non-integer
argument surfaces as the `TypeMismatch` error. -/
theorem int_fold_op_reaches_bad (f : ℤ → ℤ → Res ℤ) (e : ℤ) (bad : AtomType)
    (restA : List AtomType) (hbad : ∀ n : ℤ, bad ≠ .Int n) :
    ∀ (ns : List ℤ) (n0 m : ℤ), chainRes f n0 ns = .ok m →
      int_fold_op f e ((n0 :: ns).map .Int ++ bad :: restA) =
        .err (.InvalidType "Int" (format bad true)) := by
  suffices hgo : ∀ (ns : List ℤ) (n0 m : ℤ), chainRes f n0 ns = .ok m →
      foldGo f n0 (ns.map .Int ++ bad :: restA) =
        .err (.InvalidType "Int" (format bad true)) by
    intro ns n0 m hchain
    simp only [List.map_cons, List.cons_append, int_fold_op, get_int]
    exact hgo ns n0 m hchain
  intro ns
  induction ns with
  | nil =>
    intro n0 m _
    simp only [List.map_nil, List.nil_append, foldGo]
    rw [get_int_not_int hbad]
  | cons v t ih =>
    intro n0 m hch
    simp only [List.map_cons, List.cons_append, foldGo, get_int]
    simp only [chainRes] at hch
    cases hf : f n0 v with
    | ok a2 =>
      simp only [hf] at hch ⊢
      exact ih a2 m hch
    | err e2 => simp only [hf] at hch; exact Res.noConfusion hch
    | abort mm => simp only [hf] at hch; exact Res.noConfusion hch
    | diverge => simp only [hf] at hch; exact Res.noConfusion hch

/-- `addOp` succeeds exactly on representable sums. -/
theorem addOp_ok (a v : ℤ) (h : inI64 (a + v)) : addOp a v = .ok (a + v) := by
  simp [addOp, h]

/-- `subOp` succeeds exactly on representable differences. -/
theorem subOp_ok (a v : ℤ) (h : inI64 (a - v)) : subOp a v = .ok (a - v) := by
  simp [subOp, h]

/-- `mulOp` succeeds exactly on representable products. -/
theorem mulOp_ok (a v : ℤ) (h : inI64 (a * v)) : mulOp a v = .ok (a * v) := by
  simp [mulOp, h]

/-- `divOp` succeeds on a non-zero divisor with representable quotient. -/
theorem divOp_ok (a v : ℤ) (hv : v ≠ 0) (h : inI64 (Int.tdiv a v)) :
    divOp a v = .ok (Int.tdiv a v) := by
  unfold divOp
  rw [if_neg hv]
  have hno : ¬(a = i64min ∧ v = -1) := by
    rintro ⟨rfl, rfl⟩
    have hdiv : Int.tdiv i64min (-1) = 2 ^ 63 := by decide
    rw [hdiv] at h
    exact absurd h (by decide)
  rw [if_neg hno]

/-- C8 (amended): `+`, `-`, `*`, `/` left-fold their integer arguments with
the corresponding `i64` operation (first argument seeds the accumulator);
with no arguments `+` gives `0` and `*`, `/` give `1`; an argument list
containing a non-integer never succeeds, and when the fold survives the
integer prefix the non-integer surfaces as `TypeMismatch("Int", ..)` —
though an arithmetic panic encountered earlier (e.g. a zero divisor for
`/`) aborts the process before the type error is reached; concretely
`(+ 1 2 3) = 6`, `(- 10 1 2) = 7`, `(/ 100 5 2) = 10`. -/
theorem C8_int_fold_arithmetic :
    (add [] = .ok (.Int 0) ∧ mul [] = .ok (.Int 1) ∧ div [] = .ok (.Int 1)) ∧
    (∀ (n0 : ℤ) (ns : List ℤ), (∀ m ∈ List.scanl (· + ·) n0 ns, inI64 m) →
      add ((n0 :: ns).map .Int) = .ok (.Int (ns.foldl (· + ·) n0))) ∧
    (∀ (n0 : ℤ) (ns : List ℤ), (∀ m ∈ List.scanl (· - ·) n0 ns, inI64 m) →
      sub ((n0 :: ns).map .Int) = .ok (.Int (ns.foldl (· - ·) n0))) ∧
    (∀ (n0 : ℤ) (ns : List ℤ), (∀ m ∈ List.scanl (· * ·) n0 ns, inI64 m) →
      mul ((n0 :: ns).map .Int) = .ok (.Int (ns.foldl (· * ·) n0))) ∧
    (∀ (n0 : ℤ) (ns : List ℤ), (∀ v ∈ ns, v ≠ 0) →
      (∀ m ∈ List.scanl Int.tdiv n0 ns, inI64 m) →
      div ((n0 :: ns).map .Int) = .ok (.Int (ns.foldl Int.tdiv n0))) ∧
    (∀ args, (∃ a ∈ args, ∀ n : ℤ, a ≠ .Int n) →
      isOk (add args) = false ∧ isOk (sub args) = false ∧
      isOk (mul args) = false ∧ isOk (div args) = false) ∧
    (∀ (f : ℤ → ℤ → Res ℤ) (e : ℤ) (n0 : ℤ) (ns : List ℤ) (bad : AtomType)
        (restA : List AtomType) (m : ℤ),
      chainRes f n0 ns = .ok m → (∀ n : ℤ, bad ≠ .Int n) →
      int_fold_op f e ((n0 :: ns).map .Int ++ bad :: restA) =
        .err (.InvalidType "Int" (format bad true))) ∧
    (resVal (eval 9 (.List [.Symbol "+", .Int 1, .Int 2, .Int 3]) env0 0) = .ok (.Int 6) ∧
     resVal (eval 9 (.List [.Symbol "-", .Int 10, .Int 1, .Int 2]) env0 0) = .ok (.Int 7) ∧
     resVal (eval 9 (.List [.Symbol "/", .Int 100, .Int 5, .Int 2]) env0 0) = .ok (.Int 10)) := by
  refine ⟨⟨rfl, rfl, rfl⟩, ?_, ?_, ?_, ?_, ?_, ?_, ⟨rfl, rfl, rfl⟩⟩
  · intro n0 ns hs
    rw [add, int_fold_op_map,
      chainRes_ok_of (· + ·) addOp (fun _ => True) (fun a v _ h => addOp_ok a v h)
        ns n0 (fun _ _ => trivial) hs]
  · intro n0 ns hs
    rw [sub, int_fold_op_map,
      chainRes_ok_of (· - ·) subOp (fun _ => True) (fun a v _ h => subOp_ok a v h)
        ns n0 (fun _ _ => trivial) hs]
  · intro n0 ns hs
    rw [mul, int_fold_op_map,
      chainRes_ok_of (· * ·) mulOp (fun _ => True) (fun a v _ h => mulOp_ok a v h)
        ns n0 (fun _ _ => trivial) hs]
  · intro n0 ns hnz hs
    rw [div, int_fold_op_map,
      chainRes_ok_of Int.tdiv divOp (fun v => v ≠ 0) (fun a v hv h => divOp_ok a v hv h)
        ns n0 hnz hs]
  · intro args hex
    exact ⟨int_fold_op_not_ok addOp 0 args hex, int_fold_op_not_ok subOp 0 args hex,
           int_fold_op_not_ok mulOp 1 args hex, int_fold_op_not_ok divOp 1 args hex⟩
  · intro f e n0 ns bad restA m hch hbad
    exact int_fold_op_reaches_bad f e bad restA hbad ns n0 m hch

/-- Witness for C8: the fold laws at small concrete inputs. -/
theorem C8_witness :
    add [.Int 1, .Int 2] = .ok (.Int 3) ∧
    sub [.Int 10, .Int 1] = .ok (.Int 9) ∧
    mul [.Int 3, .Int 4] = .ok (.Int 12) ∧
    div [.Int 100, .Int 5] = .ok (.Int 20) ∧
    (isOk (add [.Nil]) = false ∧ isOk (sub [.Nil]) = false ∧
      isOk (mul [.Nil]) = false ∧ isOk (div [.Nil]) = false) ∧
    int_fold_op addOp 0 [.Int 1, .Nil] = .err (.InvalidType "Int" "Nil()") := by
  refine ⟨?_, ?_, ?_, ?_, ?_, ?_⟩
  · simpa using C8_int_fold_arithmetic.2.1 1 [2] (by decide)
  · simpa using C8_int_fold_arithmetic.2.2.1 10 [1] (by decide)
  · simpa using C8_int_fold_arithmetic.2.2.2.1 3 [4] (by decide)
  · simpa using C8_int_fold_arithmetic.2.2.2.2.1 100 [5]
      (by intro v hv; rcases List.mem_singleton.mp hv with rfl; decide) (by decide)
  · exact C8_int_fold_arithmetic.2.2.2.2.2.1 [.Nil]
      ⟨.Nil, List.mem_singleton.mpr rfl, fun n h => AtomType.noConfusion h⟩
  · simpa using C8_int_fold_arithmetic.2.2.2.2.2.2.1 addOp 0 1 [] .Nil [] 1 rfl
      (fun n h => AtomType.noConfusion h)

/-- Counterexample to C8 as stated: `(/ 1 0 nil)` has a non-integer
argument, yet the call does not fail with `TypeMismatch` — the zero
divisor is reached first and the process aborts. -/
theorem C8_counterexample :
    div [.Int 1, .Int 0, .Nil] = .abort "attempt to divide by zero" ∧
    isErr (div [.Int 1, .Int 0, .Nil]) = false := ⟨rfl, rfl⟩

/-- C5 (amended): `equals` is `false` whenever either side is a
`HostFunction` (even reflexively), and a `Closure` is never equal to a
non-`Closure`; but two `Closure`s compare structurally on body, captured
environment contents, params and macro flag, so a closure over an empty
environment does equal itself — the claim's "never equal, even
reflexively" fails for closures. -/
theorem C5_function_equality :
    (∀ fuel σ h b, atomEqF fuel σ (.Func h) b = false ∧ atomEqF fuel σ b (.Func h) = false) ∧
    (∀ fuel σ e n p m b, (∀ e2 n2 p2 m2, b ≠ AtomType.AFunc e2 n2 p2 m2) →
      atomEqF fuel σ (.AFunc e n p m) b = false) ∧
    atomEqF 5 envC5 closC5 closC5 = true := by
  refine ⟨?_, ?_, rfl⟩
  · intro fuel σ h b
    cases fuel with
    | zero => exact ⟨rfl, rfl⟩
    | succ f => cases b <;> exact ⟨rfl, rfl⟩
  · intro fuel σ e n p m b hb
    cases fuel with
    | zero => rfl
    | succ f =>
      cases b with
      | AFunc e2 n2 p2 m2 => exact absurd rfl (hb e2 n2 p2 m2)
      | Nil => rfl
      | Int x => rfl
      | Symbol s => rfl
      | List l => rfl
      | Func hf => rfl

/-- Witness for C5: a closure compares unequal to `Nil`. -/
theorem C5_witness :
    atomEqF 1 envC5 (.AFunc .Nil 0 (.List []) false) .Nil = false :=
  C5_function_equality.2.1 1 envC5 .Nil 0 (.List []) false .Nil
    (fun _ _ _ _ h => AtomType.noConfusion h)

/-- Counterexample to C5 as stated: the derived `PartialEq` makes a
`Closure` over an empty captured environment equal to itself, where the
claim requires `equals` to be `false` even reflexively. -/
theorem C5_counterexample : atomEqF 3 envC5 closC5 closC5 = true := rfl

/-- C6 (amended): evaluating a non-empty list whose head is not one of the
special-form symbols, whose elements all evaluate successfully and whose
first evaluated value is neither a `HostFunction` nor a `Closure`, fails
with `InvalidType("function", tagged rendering of the *evaluated* callee)`
— the code's not-callable error; it does not retain the original
unevaluated operator token. -/
theorem C6_not_callable_evaluated_operand :
    ∀ g σ env op (args0 : List AtomType) v vs σ2,
      op_name op ≠ "quote" → op_name op ≠ "def" → op_name op ≠ "print_env" →
      op_name op ≠ "fn*" →
      eval_ast (g + 1) (.List (op :: args0)) σ env = .ok (.List (v :: vs), σ2) →
      (∀ f, v ≠ AtomType.Func f) → (∀ e n p m, v ≠ AtomType.AFunc e n p m) →
      eval (g + 3) (.List (op :: args0)) σ env =
        .err (.InvalidType "function" (format v true)) := by
  intro g σ env op args0 v vs σ2 hq hd hp hf hast hnf hna
  simp only [eval, eval_exp, List.getElem?_cons_zero]
  rw [if_neg hq, if_neg hd, if_neg hp, if_neg hf]
  rw [hast]
  cases v with
  | Func f => exact absurd rfl (hnf f)
  | AFunc e n p m => exact absurd rfl (hna e n p m)
  | Nil => rfl
  | Int x => rfl
  | Symbol s => rfl
  | List l => rfl

/-- Witness for C6: `(x 1)` with `x` bound to `5` fails with
`InvalidType("function", "Int(5)")`. -/
theorem C6_witness :
    eval 7 (.List [.Symbol "x", .Int 1]) envC6 0 =
      .err (.InvalidType "function" "Int(5)") :=
  C6_not_callable_evaluated_operand 4 envC6 0 (.Symbol "x") [.Int 1] (.Int 5)
    [.Int 1] envC6 (by decide) (by decide) (by decide) (by decide) (by rfl)
    (fun _ h => AtomType.noConfusion h) (fun _ _ _ _ h => AtomType.noConfusion h)

/-- Counterexample to C6 as stated: in `(x 1)` with `x ↦ 5` the produced
error carries the description of the evaluated callee (`"Int(5)"`), which
differs from an error carrying the original operator token
(`format (Symbol "x") true = "Symbol(x)"`). -/
theorem C6_counterexample :
    resVal (eval 8 (.List [.Symbol "x", .Int 1]) envC6 0) =
      .err (.InvalidType "function" "Int(5)") ∧
    AtomError.InvalidType "function" "Int(5)" ≠
      .InvalidType "function" (format (.Symbol "x") true) :=
  ⟨rfl, by decide⟩

/-- C7 (amended): for `nth` on a `List` first argument, an out-of-range
integer index (after the `i64`-to-`usize` cast) yields `Nil`, an in-range
integer index yields the element at that position, and a *non-integer*
index is silently treated as index `0` (`get_int(..).unwrap_or(0)`) and
yields the first element (`Nil` only when the list is empty);
`(nth (list 1 2 3) 5)` evaluates to `nil`. -/
theorem C7_nth_index_handling :
    (∀ (xs : List AtomType) (i : ℤ), xs.length ≤ as_usize i →
      nth [.List xs, .Int i] = .ok .Nil) ∧
    (∀ (xs : List AtomType) (i : ℤ) (h : as_usize i < xs.length),
      nth [.List xs, .Int i] = .ok (xs.get ⟨as_usize i, h⟩)) ∧
    (∀ (xs : List AtomType) (v : AtomType), (∀ n : ℤ, v ≠ .Int n) →
      nth [.List xs, v] = .ok (safe_get xs 0)) ∧
    resVal (eval 15 (.List [.Symbol "nth",
      .List [.Symbol "list", .Int 1, .Int 2, .Int 3], .Int 5]) env0 0) = .ok .Nil := by
  refine ⟨?_, ?_, ?_, rfl⟩
  · intro xs i h
    simp only [nth, safe_get, get_int, get_list, List.getElem?_cons_zero,
      List.getElem?_cons_succ, Option.getD_some]
    rw [List.getElem?_eq_none h]
    rfl
  · intro xs i h
    simp only [nth, safe_get, get_int, get_list, List.getElem?_cons_zero,
      List.getElem?_cons_succ, Option.getD_some]
    rw [List.getElem?_eq_getElem h]
    rfl
  · intro xs v hv
    cases v with
    | Int n => exact absurd rfl (hv n)
    | Nil => rfl
    | Symbol s => rfl
    | List l => rfl
    | Func f => rfl
    | AFunc e n p m => rfl

/-- Witness for C7: out-of-range index gives `Nil`, in-range index gives
the element, non-integer index gives the first element. -/
theorem C7_witness :
    nth [.List [.Int 1], .Int 5] = .ok .Nil ∧
    nth [.List [.Int 1, .Int 2], .Int 1] = .ok (.Int 2) ∧
    nth [.List [.Int 9], .Symbol "k"] = .ok (.Int 9) := by
  refine ⟨?_, ?_, ?_⟩
  · exact C7_nth_index_handling.1 [.Int 1] 5 (by decide)
  · exact C7_nth_index_handling.2.1 [.Int 1, .Int 2] 1 (by decide)
  · exact C7_nth_index_handling.2.2.1 [.Int 9] (.Symbol "k")
      (fun _ h => AtomType.noConfusion h)

/-- Counterexample to C7 as stated: a non-integer index does not yield
`Nil` — `(nth (list 1 2 3) nil)` returns the first element `1`. -/
theorem C7_counterexample :
    nth [.List [.Int 1, .Int 2, .Int 3], .Nil] = .ok (.Int 1) ∧
    (Res.ok (AtomType.Int 1) : Res AtomType) ≠ .ok .Nil := by
  refine ⟨rfl, ?_⟩
  intro h
  injection h with h2
  exact AtomType.noConfusion h2

/-- C1: the `is_macro` flag of a closure has no effect on application.
With `m` bound to the macro-flagged closure `(fn* (x) (count x))`,
evaluating `(m (list 1 2))` pre-evaluates the argument to the two-element
list `(1 2)` and returns `2`; under the claimed macro semantics the raw
three-element form `(list 1 2)` would be bound, giving `3`.  The code
contradicts the spec here (no alternate apply path exists). -/
theorem C1_isMac_flag_has_no_effect :
    isMacB mAtom = true ∧
    resVal (eval 20 (.List [.Symbol "m", .List [.Symbol "list", .Int 1, .Int 2]]) envC1 0) =
      .ok (.Int 2) ∧
    resVal (eval 20 (.List [.Symbol "m", .List [.Symbol "list", .Int 1, .Int 2]]) envC1 0) ≠
      .ok (.Int 3) := by
  refine ⟨rfl, rfl, fun h => ?_⟩
  have r : resVal (eval 20 (.List [.Symbol "m",
      .List [.Symbol "list", .Int 1, .Int 2]]) envC1 0) = .ok (.Int 2) := rfl
  have h2 : (Res.ok (AtomType.Int 2) : Res AtomType) = .ok (.Int 3) := r.symm.trans h
  injection h2 with h3
  injection h3 with h4
  omega

end Rulsp
